import Mathlib

/-!
Verification of the sorted-range overlap-resolution structure (RangeSet)
implemented by `is_overlap` in `textsearch/python/textsearch/utils.py`.

Ranges are pairs of rationals `(start, end)`; the set is a list of ranges
kept sorted in ascending lexicographic order, paired with a parallel list
of integer identifiers. `isOverlap` below is a direct shallow embedding of
the Python function: it computes the bisection insertion point, performs
the query-based overlap rejection, then the neighbor-based overlap
classification and the corresponding mutation.
-/

namespace TextSearch

/-- A range is an ordered pair `(start, end)` of rationals. -/
abbrev Range : Type := ℚ × ℚ

/-- Python's lexicographic tuple comparison `a < b` on pairs. -/
def rLt (a b : Range) : Bool :=
  decide (a.1 < b.1) || (decide (a.1 = b.1) && decide (a.2 < b.2))

/-- Non-strict lexicographic comparison, `a ≤ b` iff `¬ b < a`. -/
def rLe (a b : Range) : Bool := !(rLt b a)

/-- `bisect.bisect_left` on a sorted list: the leftmost insertion point of
`q`, i.e. the number of leading elements strictly below `q`. -/
def bisectLeft : List Range → Range → Nat
  | [], _ => 0
  | x :: xs, q => if rLt x q then bisectLeft xs q + 1 else 0

/-- Step-3 left check of `is_overlap` (lines 157-163): the left neighbor's
overlap with the query, measured against the query's own length. -/
def selfLeft (ranges : List Range) (index : Nat) (query : Range)
    (overlapRatio : ℚ) : Bool :=
  decide (0 < index) &&
    decide ((ranges.getD (index - 1) (0, 0)).2 - query.1 >
      (query.2 - query.1) * overlapRatio)

/-- Step-3 right check of `is_overlap` (lines 165-170): the right neighbor's
overlap with the query, measured against the query's own length. -/
def selfRight (ranges : List Range) (index : Nat) (query : Range)
    (overlapRatio : ℚ) : Bool :=
  decide (index < ranges.length) &&
    decide (query.2 - (ranges.getD index (0, 0)).1 >
      (query.2 - query.1) * overlapRatio)

/-- `is_overlap_left` (lines 173-178): overlap with the left neighbor,
measured against the left neighbor's own length. -/
def nbrLeft (ranges : List Range) (index : Nat) (query : Range)
    (overlapRatio : ℚ) : Bool :=
  decide (0 < index) &&
    decide ((ranges.getD (index - 1) (0, 0)).2 - query.1 >
      ((ranges.getD (index - 1) (0, 0)).2 - (ranges.getD (index - 1) (0, 0)).1)
        * overlapRatio)

/-- `is_overlap_right` (lines 180-185): overlap with the right neighbor,
measured against the right neighbor's own length. -/
def nbrRight (ranges : List Range) (index : Nat) (query : Range)
    (overlapRatio : ℚ) : Bool :=
  decide (index < ranges.length) &&
    decide (query.2 - (ranges.getD index (0, 0)).1 >
      ((ranges.getD index (0, 0)).2 - (ranges.getD index (0, 0)).1)
        * overlapRatio)

/-- Shallow embedding of `is_overlap` (utils.py lines 110-205). The Python
function mutates `ranges`/`indexes` in place and returns a pair; here the
result is the returned pair together with the two lists after the call.
`pop(i)` is rendered by reading position `i` of the post-insertion list
(`getD`) and then `eraseIdx i`. -/
def isOverlap (ranges : List Range) (indexes : List ℤ) (query : Range)
    (segmentIndex : ℤ) (overlapRatio : ℚ) :
    (Bool × Option ℤ) × List Range × List ℤ :=
  let index := bisectLeft ranges query
  if ranges.isEmpty then
    ((false, none), List.insertIdx index query ranges,
      List.insertIdx index segmentIndex indexes)
  else if selfLeft ranges index query overlapRatio then
    ((true, none), ranges, indexes)
  else if selfRight ranges index query overlapRatio then
    ((true, none), ranges, indexes)
  else
    let oL := nbrLeft ranges index query overlapRatio
    let oR := nbrRight ranges index query overlapRatio
    if oL && !oR then
      ((true, some ((List.insertIdx index segmentIndex indexes).getD (index - 1) 0)),
        (List.insertIdx index query ranges).eraseIdx (index - 1),
        (List.insertIdx index segmentIndex indexes).eraseIdx (index - 1))
    else if oR && !oL then
      ((true, some ((List.insertIdx index segmentIndex indexes).getD (index + 1) 0)),
        (List.insertIdx index query ranges).eraseIdx (index + 1),
        (List.insertIdx index segmentIndex indexes).eraseIdx (index + 1))
    else if oL || oR then
      ((true, none), ranges, indexes)
    else
      ((false, none), List.insertIdx index query ranges,
        List.insertIdx index segmentIndex indexes)

/-- Folding a sequence of insertions over a state, with one fixed ratio. -/
def insertAll (calls : List (Range × ℤ)) (overlapRatio : ℚ)
    (st : List Range × List ℤ) : List Range × List ℤ :=
  calls.foldl (fun s c => (isOverlap s.1 s.2 c.1 c.2 overlapRatio).2) st

/-- Two consecutive ranges are compatible under the ratio policy: the
overlap amount `a.end - b.start` does not strictly exceed the ratio times
either range's own length. -/
def compatiblePair (a b : Range) (overlapRatio : ℚ) : Bool :=
  decide (a.2 - b.1 ≤ (a.2 - a.1) * overlapRatio) &&
    decide (a.2 - b.1 ≤ (b.2 - b.1) * overlapRatio)

/-- Every pair of consecutive ranges in the list is compatible. -/
def chainCompatible : List Range → ℚ → Bool
  | [], _ => true
  | [_], _ => true
  | a :: b :: rest, overlapRatio =>
      compatiblePair a b overlapRatio && chainCompatible (b :: rest) overlapRatio

/-- Sortedness of the range list: ascending in the lexicographic order. -/
def rangesSorted (l : List Range) : Prop :=
  List.Pairwise (fun a b => rLe a b = true) l

/-- The neighbor to the left of the insertion point, if any. -/
def leftNbr (ranges : List Range) (index : Nat) : Option Range :=
  if 0 < index then some (ranges.getD (index - 1) (0, 0)) else none

/-- The neighbor to the right of the insertion point, if any. -/
def rightNbr (ranges : List Range) (index : Nat) : Option Range :=
  if index < ranges.length then some (ranges.getD index (0, 0)) else none

/-- The five possible outcomes of one insertion. -/
inductive Outcome : Type
  | inserted
  | rejectedQuery
  | evictedLeft
  | evictedRight
  | rejectedBoth
deriving DecidableEq

/-- Query-based check against an optional left neighbor. -/
def optSelfCheckL (left : Option Range) (q : Range) (ratio : ℚ) : Bool :=
  match left with
  | none => false
  | some l => decide (l.2 - q.1 > (q.2 - q.1) * ratio)

/-- Query-based check against an optional right neighbor. -/
def optSelfCheckR (right : Option Range) (q : Range) (ratio : ℚ) : Bool :=
  match right with
  | none => false
  | some r => decide (q.2 - r.1 > (q.2 - q.1) * ratio)

/-- Neighbor-based check against an optional left neighbor. -/
def optNbrCheckL (left : Option Range) (q : Range) (ratio : ℚ) : Bool :=
  match left with
  | none => false
  | some l => decide (l.2 - q.1 > (l.2 - l.1) * ratio)

/-- Neighbor-based check against an optional right neighbor. -/
def optNbrCheckR (right : Option Range) (q : Range) (ratio : ℚ) : Bool :=
  match right with
  | none => false
  | some r => decide (q.2 - r.1 > (r.2 - r.1) * ratio)

/-- The decision of one insertion as a function of the (at most two)
neighbors of the insertion point, the query and the ratio alone. -/
def localOutcome (left right : Option Range) (q : Range) (ratio : ℚ) :
    Outcome :=
  if optSelfCheckL left q ratio then Outcome.rejectedQuery
  else if optSelfCheckR right q ratio then Outcome.rejectedQuery
  else if optNbrCheckL left q ratio && !(optNbrCheckR right q ratio) then
    Outcome.evictedLeft
  else if optNbrCheckR right q ratio && !(optNbrCheckL left q ratio) then
    Outcome.evictedRight
  else if optNbrCheckL left q ratio || optNbrCheckR right q ratio then
    Outcome.rejectedBoth
  else Outcome.inserted

/-! ### Order lemmas -/

theorem rLt_iff {a b : Range} :
    rLt a b = true ↔ a.1 < b.1 ∨ (a.1 = b.1 ∧ a.2 < b.2) := by
  simp [rLt]

theorem rLt_irrefl (a : Range) : rLt a a = false := by
  simp [rLt]

theorem rLt_asymm {a b : Range} (h : rLt a b = true) : rLt b a = false := by
  rcases rLt_iff.mp h with h1 | ⟨h1, h2⟩ <;>
    · rw [← Bool.not_eq_true, rLt_iff]
      push_neg
      constructor
      · linarith
      · intro he
        linarith

theorem rLe_iff {a b : Range} :
    rLe a b = true ↔ a.1 < b.1 ∨ (a.1 = b.1 ∧ a.2 ≤ b.2) := by
  rw [rLe, Bool.not_eq_true', ← Bool.not_eq_true, rLt_iff]
  push_neg
  constructor
  · rintro ⟨h1, h2⟩
    rcases lt_or_eq_of_le h1 with h | h
    · exact Or.inl h
    · exact Or.inr ⟨h, h2 h.symm⟩
  · rintro (h | ⟨h1, h2⟩)
    · refine ⟨le_of_lt h, fun he => ?_⟩
      rw [he] at h
      exact absurd h (lt_irrefl _)
    · exact ⟨le_of_eq h1, fun _ => h2⟩

theorem rLe_of_rLt {a b : Range} (h : rLt a b = true) : rLe a b = true := by
  rw [rLe, rLt_asymm h]
  rfl

theorem rLe_of_not_rLt {a b : Range} (h : rLt b a = false) : rLe a b = true := by
  rw [rLe, h]
  rfl

theorem rLe_trans {a b c : Range} (h1 : rLe a b = true) (h2 : rLe b c = true) :
    rLe a c = true := by
  rw [rLe_iff] at h1 h2 ⊢
  rcases h1 with h1 | ⟨h1, h1'⟩ <;> rcases h2 with h2 | ⟨h2, h2'⟩
  · exact Or.inl (lt_trans h1 h2)
  · exact Or.inl (h2 ▸ h1)
  · exact Or.inl (h1 ▸ h2)
  · exact Or.inr ⟨h1.trans h2, le_trans h1' h2'⟩

/-! ### bisectLeft lemmas -/

theorem bisectLeft_le_length (l : List Range) (q : Range) :
    bisectLeft l q ≤ l.length := by
  induction l with
  | nil => simp [bisectLeft]
  | cons x xs ih =>
    simp only [bisectLeft, List.length_cons]
    split
    · exact Nat.succ_le_succ ih
    · exact Nat.zero_le _

/-- After inserting `q` at its own bisection point, the bisection point of
`q` is unchanged. -/
theorem bisectLeft_insertIdx_self (l : List Range) (q : Range) :
    bisectLeft (List.insertIdx (bisectLeft l q) q l) q = bisectLeft l q := by
  induction l with
  | nil =>
    simp [bisectLeft, List.insertIdx_zero, rLt_irrefl]
  | cons x xs ih =>
    by_cases h : rLt x q = true
    · have hb : bisectLeft (x :: xs) q = bisectLeft xs q + 1 := by
        simp [bisectLeft, h]
      rw [hb, List.insertIdx_succ_cons]
      simp [bisectLeft, h, ih]
    · have hb : bisectLeft (x :: xs) q = 0 := by
        simp [bisectLeft, h]
      rw [hb, List.insertIdx_zero]
      simp [bisectLeft, rLt_irrefl]

/-! ### insertIdx / eraseIdx helper lemmas -/

theorem mem_of_mem_insertIdx {α : Type} :
    ∀ (n : Nat) (l : List α) (a y : α),
      y ∈ List.insertIdx n a l → y = a ∨ y ∈ l
  | 0, l, a, y, h => by
    rw [List.insertIdx_zero] at h
    exact List.mem_cons.mp h
  | n + 1, [], a, y, h => by
    rw [List.insertIdx_succ_nil] at h
    exact absurd h (List.not_mem_nil y)
  | n + 1, x :: xs, a, y, h => by
    rw [List.insertIdx_succ_cons] at h
    rcases List.mem_cons.mp h with rfl | h'
    · exact Or.inr (List.mem_cons_self _ _)
    · rcases mem_of_mem_insertIdx n xs a y h' with h'' | h''
      · exact Or.inl h''
      · exact Or.inr (List.mem_cons_of_mem _ h'')

theorem sublist_insertIdx {α : Type} :
    ∀ (n : Nat) (a : α) (l : List α), l.Sublist (List.insertIdx n a l)
  | 0, a, l => by
    rw [List.insertIdx_zero]
    exact List.sublist_cons_self a l
  | n + 1, a, [] => by
    rw [List.insertIdx_succ_nil]
  | n + 1, a, x :: xs => by
    rw [List.insertIdx_succ_cons]
    exact List.Sublist.cons₂ x (sublist_insertIdx n a xs)

theorem getD_insertIdx_of_lt {α : Type} :
    ∀ (n : Nat) (l : List α) (a d : α) (i : Nat), i < n →
      (List.insertIdx n a l).getD i d = l.getD i d
  | 0, _, _, _, i, h => absurd h (Nat.not_lt_zero i)
  | n + 1, [], a, d, i, _ => by rw [List.insertIdx_succ_nil]
  | n + 1, x :: xs, a, d, 0, _ => by rw [List.insertIdx_succ_cons]; rfl
  | n + 1, x :: xs, a, d, i + 1, h => by
    rw [List.insertIdx_succ_cons]
    show (List.insertIdx n a xs).getD i d = xs.getD i d
    exact getD_insertIdx_of_lt n xs a d i (Nat.lt_of_succ_lt_succ h)

theorem getD_insertIdx_self {α : Type} :
    ∀ (n : Nat) (l : List α) (a d : α), n ≤ l.length →
      (List.insertIdx n a l).getD n d = a
  | 0, l, a, d, _ => by rw [List.insertIdx_zero]; rfl
  | n + 1, [], a, d, h => absurd h (by simp)
  | n + 1, x :: xs, a, d, h => by
    rw [List.insertIdx_succ_cons]
    show (List.insertIdx n a xs).getD n d = a
    exact getD_insertIdx_self n xs a d (Nat.le_of_succ_le_succ h)

theorem getD_insertIdx_succ_of_le {α : Type} :
    ∀ (n : Nat) (l : List α) (a d : α) (i : Nat), n ≤ l.length → n ≤ i →
      (List.insertIdx n a l).getD (i + 1) d = l.getD i d
  | 0, l, a, d, i, _, _ => by rw [List.insertIdx_zero]; rfl
  | n + 1, [], a, d, i, h, _ => absurd h (by simp)
  | n + 1, x :: xs, a, d, 0, _, h2 => absurd h2 (by omega)
  | n + 1, x :: xs, a, d, i + 1, h, h2 => by
    rw [List.insertIdx_succ_cons]
    show (List.insertIdx n a xs).getD (i + 1) d = xs.getD i d
    exact getD_insertIdx_succ_of_le n xs a d i (Nat.le_of_succ_le_succ h)
      (Nat.le_of_succ_le_succ h2)

theorem zip_insertIdx {α β : Type} :
    ∀ (n : Nat) (l : List α) (m : List β) (a : α) (b : β),
      (List.insertIdx n a l).zip (List.insertIdx n b m) =
        List.insertIdx n (a, b) (l.zip m)
  | 0, l, m, a, b => by
    rw [List.insertIdx_zero, List.insertIdx_zero, List.insertIdx_zero]
    rfl
  | n + 1, [], m, a, b => by
    rw [List.insertIdx_succ_nil]
    simp
  | n + 1, x :: xs, [], a, b => by
    rw [List.insertIdx_succ_nil, List.insertIdx_succ_cons]
    simp
  | n + 1, x :: xs, y :: ys, a, b => by
    rw [List.insertIdx_succ_cons, List.insertIdx_succ_cons, List.zip_cons_cons,
      List.zip_cons_cons, List.insertIdx_succ_cons, zip_insertIdx n xs ys a b]

theorem zip_eraseIdx {α β : Type} :
    ∀ (n : Nat) (l : List α) (m : List β),
      (l.eraseIdx n).zip (m.eraseIdx n) = (l.zip m).eraseIdx n
  | _, [], _ => by simp
  | _, x :: xs, [] => by simp
  | 0, x :: xs, y :: ys => rfl
  | n + 1, x :: xs, y :: ys =>
    congrArg (List.cons (x, y)) (zip_eraseIdx n xs ys)

/-- Inserting `q` at its bisection point keeps the list sorted. -/
theorem rangesSorted_insertIdx_bisect (l : List Range) (q : Range)
    (h : rangesSorted l) :
    rangesSorted (List.insertIdx (bisectLeft l q) q l) := by
  induction l with
  | nil =>
    simp [bisectLeft, List.insertIdx_zero, rangesSorted]
  | cons x xs ih =>
    rcases List.pairwise_cons.mp h with ⟨hx, hxs⟩
    by_cases hlt : rLt x q = true
    · have hb : bisectLeft (x :: xs) q = bisectLeft xs q + 1 := by
        simp [bisectLeft, hlt]
      rw [rangesSorted, hb, List.insertIdx_succ_cons]
      refine List.pairwise_cons.mpr ⟨?_, ih hxs⟩
      intro y hy
      rcases mem_of_mem_insertIdx _ _ _ _ hy with rfl | hy'
      · exact rLe_of_rLt hlt
      · exact hx y hy'
    · have hlt' : rLt x q = false := Bool.not_eq_true _ ▸ hlt
      have hb : bisectLeft (x :: xs) q = 0 := by
        simp [bisectLeft, hlt']
      rw [rangesSorted, hb, List.insertIdx_zero]
      refine List.pairwise_cons.mpr ⟨?_, h⟩
      intro y hy
      rcases List.mem_cons.mp hy with rfl | hy'
      · exact rLe_of_not_rLt hlt'
      · exact rLe_trans (rLe_of_not_rLt hlt') (hx y hy')

/-! ### Branch lemmas for isOverlap

Each lemma pins down the exact result of `isOverlap` in one branch of the
source function, under the Boolean values of the checks that select it. -/

theorem isOverlap_empty (indexes : List ℤ) (q : Range) (seg : ℤ) (ratio : ℚ) :
    isOverlap [] indexes q seg ratio = ((false, none), [q], seg :: indexes) := by
  simp [isOverlap, bisectLeft, List.insertIdx_zero]

theorem isOverlap_selfLeft {ranges : List Range} (indexes : List ℤ)
    {q : Range} (seg : ℤ) {ratio : ℚ} (hne : ranges ≠ [])
    (h : selfLeft ranges (bisectLeft ranges q) q ratio = true) :
    isOverlap ranges indexes q seg ratio = ((true, none), ranges, indexes) := by
  simp [isOverlap, List.isEmpty_eq_false.mpr hne, h]

theorem isOverlap_selfRight {ranges : List Range} (indexes : List ℤ)
    {q : Range} (seg : ℤ) {ratio : ℚ} (hne : ranges ≠ [])
    (hL : selfLeft ranges (bisectLeft ranges q) q ratio = false)
    (hR : selfRight ranges (bisectLeft ranges q) q ratio = true) :
    isOverlap ranges indexes q seg ratio = ((true, none), ranges, indexes) := by
  simp [isOverlap, List.isEmpty_eq_false.mpr hne, hL, hR]

theorem isOverlap_evictLeft {ranges : List Range} (indexes : List ℤ)
    {q : Range} (seg : ℤ) {ratio : ℚ} (hne : ranges ≠ [])
    (hL : selfLeft ranges (bisectLeft ranges q) q ratio = false)
    (hR : selfRight ranges (bisectLeft ranges q) q ratio = false)
    (hoL : nbrLeft ranges (bisectLeft ranges q) q ratio = true)
    (hoR : nbrRight ranges (bisectLeft ranges q) q ratio = false) :
    isOverlap ranges indexes q seg ratio =
      ((true, some ((List.insertIdx (bisectLeft ranges q) seg indexes).getD
          (bisectLeft ranges q - 1) 0)),
        (List.insertIdx (bisectLeft ranges q) q ranges).eraseIdx
          (bisectLeft ranges q - 1),
        (List.insertIdx (bisectLeft ranges q) seg indexes).eraseIdx
          (bisectLeft ranges q - 1)) := by
  simp [isOverlap, List.isEmpty_eq_false.mpr hne, hL, hR, hoL, hoR]

theorem isOverlap_evictRight {ranges : List Range} (indexes : List ℤ)
    {q : Range} (seg : ℤ) {ratio : ℚ} (hne : ranges ≠ [])
    (hL : selfLeft ranges (bisectLeft ranges q) q ratio = false)
    (hR : selfRight ranges (bisectLeft ranges q) q ratio = false)
    (hoL : nbrLeft ranges (bisectLeft ranges q) q ratio = false)
    (hoR : nbrRight ranges (bisectLeft ranges q) q ratio = true) :
    isOverlap ranges indexes q seg ratio =
      ((true, some ((List.insertIdx (bisectLeft ranges q) seg indexes).getD
          (bisectLeft ranges q + 1) 0)),
        (List.insertIdx (bisectLeft ranges q) q ranges).eraseIdx
          (bisectLeft ranges q + 1),
        (List.insertIdx (bisectLeft ranges q) seg indexes).eraseIdx
          (bisectLeft ranges q + 1)) := by
  simp [isOverlap, List.isEmpty_eq_false.mpr hne, hL, hR, hoL, hoR]

theorem isOverlap_rejectBoth {ranges : List Range} (indexes : List ℤ)
    {q : Range} (seg : ℤ) {ratio : ℚ} (hne : ranges ≠ [])
    (hL : selfLeft ranges (bisectLeft ranges q) q ratio = false)
    (hR : selfRight ranges (bisectLeft ranges q) q ratio = false)
    (hoL : nbrLeft ranges (bisectLeft ranges q) q ratio = true)
    (hoR : nbrRight ranges (bisectLeft ranges q) q ratio = true) :
    isOverlap ranges indexes q seg ratio = ((true, none), ranges, indexes) := by
  simp [isOverlap, List.isEmpty_eq_false.mpr hne, hL, hR, hoL, hoR]

theorem isOverlap_plainInsert {ranges : List Range} (indexes : List ℤ)
    {q : Range} (seg : ℤ) {ratio : ℚ} (hne : ranges ≠ [])
    (hL : selfLeft ranges (bisectLeft ranges q) q ratio = false)
    (hR : selfRight ranges (bisectLeft ranges q) q ratio = false)
    (hoL : nbrLeft ranges (bisectLeft ranges q) q ratio = false)
    (hoR : nbrRight ranges (bisectLeft ranges q) q ratio = false) :
    isOverlap ranges indexes q seg ratio =
      ((false, none), List.insertIdx (bisectLeft ranges q) q ranges,
        List.insertIdx (bisectLeft ranges q) seg indexes) := by
  simp [isOverlap, List.isEmpty_eq_false.mpr hne, hL, hR, hoL, hoR]

/-- Inversion: on a non-empty set, a `False` admission flag forces all four
overlap checks to be false. -/
theorem checks_false_of_result_false {ranges : List Range} {indexes : List ℤ}
    {q : Range} {seg : ℤ} {ratio : ℚ} (hne : ranges ≠ [])
    (h : (isOverlap ranges indexes q seg ratio).1.1 = false) :
    selfLeft ranges (bisectLeft ranges q) q ratio = false ∧
      selfRight ranges (bisectLeft ranges q) q ratio = false ∧
      nbrLeft ranges (bisectLeft ranges q) q ratio = false ∧
      nbrRight ranges (bisectLeft ranges q) q ratio = false := by
  by_cases hL : selfLeft ranges (bisectLeft ranges q) q ratio = true
  · rw [isOverlap_selfLeft indexes seg hne hL] at h
    exact absurd h (by simp)
  rw [Bool.not_eq_true] at hL
  by_cases hR : selfRight ranges (bisectLeft ranges q) q ratio = true
  · rw [isOverlap_selfRight indexes seg hne hL hR] at h
    exact absurd h (by simp)
  rw [Bool.not_eq_true] at hR
  by_cases hoL : nbrLeft ranges (bisectLeft ranges q) q ratio = true
  · by_cases hoR : nbrRight ranges (bisectLeft ranges q) q ratio = true
    · rw [isOverlap_rejectBoth indexes seg hne hL hR hoL hoR] at h
      exact absurd h (by simp)
    · rw [Bool.not_eq_true] at hoR
      rw [isOverlap_evictLeft indexes seg hne hL hR hoL hoR] at h
      exact absurd h (by simp)
  rw [Bool.not_eq_true] at hoL
  by_cases hoR : nbrRight ranges (bisectLeft ranges q) q ratio = true
  · rw [isOverlap_evictRight indexes seg hne hL hR hoL hoR] at h
    exact absurd h (by simp)
  rw [Bool.not_eq_true] at hoR
  exact ⟨hL, hR, hoL, hoR⟩

/-- Inversion: a `False` admission flag means the call was a plain insertion
of the query (and the identifier) at the bisection point. -/
theorem result_of_result_false {ranges : List Range} {indexes : List ℤ}
    {q : Range} {seg : ℤ} {ratio : ℚ}
    (h : (isOverlap ranges indexes q seg ratio).1.1 = false) :
    isOverlap ranges indexes q seg ratio =
      ((false, none), List.insertIdx (bisectLeft ranges q) q ranges,
        List.insertIdx (bisectLeft ranges q) seg indexes) := by
  by_cases hne : ranges = []
  · subst hne
    rw [isOverlap_empty]
    simp [bisectLeft, List.insertIdx_zero]
  · obtain ⟨hL, hR, hoL, hoR⟩ := checks_false_of_result_false hne h
    exact isOverlap_plainInsert indexes seg hne hL hR hoL hoR

/-! ### Claim theorems -/

/-- C9: inserting a valid query into an empty RangeSet always succeeds
unconditionally: the call returns `(False, None)` and afterwards the set
contains exactly the query/identifier pair at position 0. -/
theorem insert_into_empty (q : Range) (seg : ℤ) (ratio : ℚ)
    (_hq : q.1 ≤ q.2) :
    isOverlap [] [] q seg ratio = ((false, none), [q], [seg]) :=
  isOverlap_empty [] q seg ratio

/-- Witness for C9 at the concrete input `(0, 10)`, identifier 3. -/
theorem insert_into_empty_witness :
    isOverlap [] [] (0, 10) 3 (1/4) = ((false, none), [(0, 10)], [3]) :=
  insert_into_empty (0, 10) 3 (1/4) (by norm_num)

/-- C2: on a non-empty set, if either query-based check fires the call
returns `(True, None)` immediately with no mutation; and the concrete
scenario: after inserting `(0,10)` with id `A = 0` into an empty set,
inserting `(9,11)` with id `B = 1` at ratio `0.1` returns `(True, None)`
and leaves `(0,10)/A` as the sole entry. -/
theorem self_overlap_rejection :
    (∀ (ranges : List Range) (indexes : List ℤ) (q : Range) (seg : ℤ)
      (ratio : ℚ), ranges ≠ [] →
      (selfLeft ranges (bisectLeft ranges q) q ratio = true ∨
        selfRight ranges (bisectLeft ranges q) q ratio = true) →
      isOverlap ranges indexes q seg ratio = ((true, none), ranges, indexes)) ∧
    isOverlap [] [] (0, 10) 0 (1/10) = ((false, none), [(0, 10)], [0]) ∧
    isOverlap [(0, 10)] [0] (9, 11) 1 (1/10) = ((true, none), [(0, 10)], [0]) := by
  refine ⟨?_, by norm_num [isOverlap, bisectLeft],
    by norm_num [isOverlap, bisectLeft, rLt, selfLeft, selfRight, nbrLeft, nbrRight]⟩
  intro ranges indexes q seg ratio hne h
  by_cases hL : selfLeft ranges (bisectLeft ranges q) q ratio = true
  · exact isOverlap_selfLeft indexes seg hne hL
  · rcases h with h | h
    · exact absurd h hL
    · exact isOverlap_selfRight indexes seg hne (Bool.not_eq_true _ ▸ hL) h

/-- Witness for C2: a right-neighbor query-based rejection at a concrete
input, via the general part of the theorem. -/
theorem self_overlap_rejection_witness :
    isOverlap [(2, 8)] [9] (1, 5) 2 (1/4) = ((true, none), [(2, 8)], [9]) :=
  self_overlap_rejection.1 [(2, 8)] [9] (1, 5) 2 (1/4) (by simp)
    (Or.inr (by norm_num [selfRight, bisectLeft, rLt]))

/-- C7: every overlap classification uses a strict comparison: an overlap
amount exactly equal to `overlap_ratio * length` (for the respective ratio
base) is classified as NOT overlapping, in all four checks. -/
theorem boundary_exact_not_overlapping (ranges : List Range) (index : Nat)
    (q : Range) (ratio : ℚ) :
    ((ranges.getD (index - 1) (0, 0)).2 - q.1 = (q.2 - q.1) * ratio →
      selfLeft ranges index q ratio = false) ∧
    (q.2 - (ranges.getD index (0, 0)).1 = (q.2 - q.1) * ratio →
      selfRight ranges index q ratio = false) ∧
    ((ranges.getD (index - 1) (0, 0)).2 - q.1 =
        ((ranges.getD (index - 1) (0, 0)).2 - (ranges.getD (index - 1) (0, 0)).1)
          * ratio →
      nbrLeft ranges index q ratio = false) ∧
    (q.2 - (ranges.getD index (0, 0)).1 =
        ((ranges.getD index (0, 0)).2 - (ranges.getD index (0, 0)).1) * ratio →
      nbrRight ranges index q ratio = false) := by
  refine ⟨fun h => ?_, fun h => ?_, fun h => ?_, fun h => ?_⟩
  · simp only [selfLeft]
    rw [h]
    simp
  · simp only [selfRight]
    rw [h]
    simp
  · simp only [nbrLeft]
    rw [h]
    simp
  · simp only [nbrRight]
    rw [h]
    simp

/-- Witness for C7: a boundary-exact left-neighbor overlap (`5-4 = 1` equals
`(8-4) * 1/4`) is not classified as an overlap. -/
theorem boundary_exact_not_overlapping_witness :
    selfLeft [(0, 5)] 1 (4, 8) (1/4) = false :=
  (boundary_exact_not_overlapping [(0, 5)] 1 (4, 8) (1/4)).1 (by norm_num)

/-- Counterexample for C5: the code performs no input validation. A query
with `start > end` (here `(5,3)`), and a ratio outside `(0,1]` (here `2`),
are both accepted: no error is signalled and the set is mutated, against
the claim that the RangeSet is left unmodified upon an error. -/
theorem no_validation_counterexample :
    ((5 : ℚ) > 3 ∧ (isOverlap [] [] (5, 3) 0 (1/4)).2 ≠ ([], [])) ∧
    (¬((0 : ℚ) < 2 ∧ (2 : ℚ) ≤ 1) ∧
      (isOverlap [] [] (0, 1) 0 2).2 ≠ ([], [])) := by
  refine ⟨⟨by norm_num, ?_⟩, ⟨by norm_num, ?_⟩⟩ <;>
    · rw [isOverlap_empty]
      simp

/-- C5 as amended: `insert` performs no input validation. A call whose
query has `start > end`, or whose ratio lies outside `(0, 1]`, raises no
error and simply runs the normal algorithm; on an empty set the invalid
call inserts the query and returns `(False, None)`. -/
theorem no_validation (q : Range) (seg : ℤ) (ratio : ℚ)
    (_hbad : q.2 < q.1 ∨ ratio ≤ 0 ∨ 1 < ratio) :
    isOverlap [] [] q seg ratio = ((false, none), [q], [seg]) :=
  isOverlap_empty [] q seg ratio

/-- Witness for amended C5 at the reversed query `(5, 3)`. -/
theorem no_validation_witness :
    isOverlap [] [] (5, 3) 7 (1/4) = ((false, none), [(5, 3)], [7]) :=
  no_validation (5, 3) 7 (1/4) (Or.inl (by norm_num))

/-- C1: on a non-empty sorted RangeSet, when the query survives the
query-based rejection of step 3, `insert` follows the decision table on
`(overlap_left, overlap_right)`: `(false,false)` inserts the query at the
insertion point returning `(False, None)`; `(true,false)` replaces the left
neighbor (remove it, insert the query in its place) returning `(True, left
neighbor's identifier)`; `(false,true)` replaces the right neighbor
returning `(True, right neighbor's identifier)`; `(true,true)` leaves the
set unchanged returning `(True, None)`. Consequently the call grows the set
by one, leaves it unchanged, or keeps its size (replacing one element). -/
theorem insert_decision_table (ranges : List Range) (indexes : List ℤ)
    (q : Range) (seg : ℤ) (ratio : ℚ)
    (_hsort : rangesSorted ranges)
    (hlen : indexes.length = ranges.length)
    (hne : ranges ≠ [])
    (hL : selfLeft ranges (bisectLeft ranges q) q ratio = false)
    (hR : selfRight ranges (bisectLeft ranges q) q ratio = false) :
    (nbrLeft ranges (bisectLeft ranges q) q ratio = false →
      nbrRight ranges (bisectLeft ranges q) q ratio = false →
      isOverlap ranges indexes q seg ratio =
        ((false, none), List.insertIdx (bisectLeft ranges q) q ranges,
          List.insertIdx (bisectLeft ranges q) seg indexes)) ∧
    (nbrLeft ranges (bisectLeft ranges q) q ratio = true →
      nbrRight ranges (bisectLeft ranges q) q ratio = false →
      isOverlap ranges indexes q seg ratio =
        ((true, some (indexes.getD (bisectLeft ranges q - 1) 0)),
          List.insertIdx (bisectLeft ranges q - 1) q
            (ranges.eraseIdx (bisectLeft ranges q - 1)),
          List.insertIdx (bisectLeft ranges q - 1) seg
            (indexes.eraseIdx (bisectLeft ranges q - 1)))) ∧
    (nbrLeft ranges (bisectLeft ranges q) q ratio = false →
      nbrRight ranges (bisectLeft ranges q) q ratio = true →
      isOverlap ranges indexes q seg ratio =
        ((true, some (indexes.getD (bisectLeft ranges q) 0)),
          List.insertIdx (bisectLeft ranges q) q
            (ranges.eraseIdx (bisectLeft ranges q)),
          List.insertIdx (bisectLeft ranges q) seg
            (indexes.eraseIdx (bisectLeft ranges q)))) ∧
    (nbrLeft ranges (bisectLeft ranges q) q ratio = true →
      nbrRight ranges (bisectLeft ranges q) q ratio = true →
      isOverlap ranges indexes q seg ratio = ((true, none), ranges, indexes)) ∧
    ((isOverlap ranges indexes q seg ratio).2.1.length = ranges.length + 1 ∨
      (isOverlap ranges indexes q seg ratio).2.1 = ranges ∨
      (isOverlap ranges indexes q seg ratio).2.1.length = ranges.length) := by
  have hble : bisectLeft ranges q ≤ ranges.length := bisectLeft_le_length ranges q
  refine ⟨fun hoL hoR => ?_, fun hoL hoR => ?_, fun hoL hoR => ?_,
    fun hoL hoR => ?_, ?_⟩
  · exact isOverlap_plainInsert indexes seg hne hL hR hoL hoR
  · -- left eviction
    have hpos : 0 < bisectLeft ranges q := by
      have h1 := hoL
      simp only [nbrLeft, Bool.and_eq_true, decide_eq_true_eq] at h1
      exact h1.1
    have hlt : bisectLeft ranges q - 1 < ranges.length := by omega
    have hlt' : bisectLeft ranges q - 1 < indexes.length := by omega
    have hsucc : bisectLeft ranges q - 1 + 1 = bisectLeft ranges q := by omega
    have e1 := List.insertIdx_eraseIdx_of_ge (a := q)
      (bisectLeft ranges q - 1) (bisectLeft ranges q - 1) ranges hlt le_rfl
    have e2 := List.insertIdx_eraseIdx_of_ge (a := seg)
      (bisectLeft ranges q - 1) (bisectLeft ranges q - 1) indexes hlt' le_rfl
    rw [hsucc] at e1 e2
    rw [isOverlap_evictLeft indexes seg hne hL hR hoL hoR]
    rw [getD_insertIdx_of_lt _ _ _ _ _ (by omega), ← e1, ← e2]
  · -- right eviction
    rw [isOverlap_evictRight indexes seg hne hL hR hoL hoR]
    have hidx : bisectLeft ranges q < ranges.length := by
      have h1 := hoR
      simp only [nbrRight, Bool.and_eq_true, decide_eq_true_eq] at h1
      exact h1.1
    rw [getD_insertIdx_succ_of_le _ _ _ _ _ (by omega) le_rfl]
    rw [← List.insertIdx_eraseIdx_of_le _ _ _ hidx le_rfl,
      ← List.insertIdx_eraseIdx_of_le _ _ _ (by omega) le_rfl]
  · exact isOverlap_rejectBoth indexes seg hne hL hR hoL hoR
  · -- length trichotomy
    by_cases hoL : nbrLeft ranges (bisectLeft ranges q) q ratio = true <;>
      by_cases hoR : nbrRight ranges (bisectLeft ranges q) q ratio = true
    · rw [isOverlap_rejectBoth indexes seg hne hL hR hoL hoR]
      exact Or.inr (Or.inl rfl)
    · rw [Bool.not_eq_true] at hoR
      have hpos : 0 < bisectLeft ranges q := by
        have h1 := hoL
        simp only [nbrLeft, Bool.and_eq_true, decide_eq_true_eq] at h1
        exact h1.1
      rw [isOverlap_evictLeft indexes seg hne hL hR hoL hoR]
      refine Or.inr (Or.inr ?_)
      rw [List.length_eraseIdx_of_lt
        (by rw [List.length_insertIdx _ _ hble]; omega),
        List.length_insertIdx _ _ hble]
      omega
    · rw [Bool.not_eq_true] at hoL
      have hidx : bisectLeft ranges q < ranges.length := by
        have h1 := hoR
        simp only [nbrRight, Bool.and_eq_true, decide_eq_true_eq] at h1
        exact h1.1
      rw [isOverlap_evictRight indexes seg hne hL hR hoL hoR]
      refine Or.inr (Or.inr ?_)
      rw [List.length_eraseIdx_of_lt
        (by rw [List.length_insertIdx _ _ hble]; omega),
        List.length_insertIdx _ _ hble]
      omega
    · rw [Bool.not_eq_true] at hoL hoR
      rw [isOverlap_plainInsert indexes seg hne hL hR hoL hoR]
      exact Or.inl (List.length_insertIdx _ _ hble)

/-- Witness for C1: a clean insertion far to the right of a single
existing range, exercising the `(false, false)` row of the table. -/
theorem insert_decision_table_witness :
    isOverlap [(0, 10)] [5] (20, 30) 7 (1/4) =
      ((false, none), [(0, 10), (20, 30)], [5, 7]) := by
  have h := (insert_decision_table [(0, 10)] [5] (20, 30) 7 (1/4)
    (by simp [rangesSorted]) rfl (by simp)
    (by norm_num [selfLeft, bisectLeft, rLt])
    (by norm_num [selfRight, bisectLeft, rLt])).1
    (by norm_num [nbrLeft, bisectLeft, rLt])
    (by norm_num [nbrRight, bisectLeft, rLt])
  rw [h]
  norm_num [bisectLeft, rLt, List.insertIdx_succ_cons, List.insertIdx_zero]

/-- Counterexample for C6: with `overlap_ratio = 1` (allowed by the claim's
`(0, 1]`), re-inserting the query `(0,10)` whose first insertion succeeded
is NOT rejected: the second call also returns admitted `False` and
duplicates the entry, because the self-overlap comparison is strict. -/
theorem reinsertion_rejected_counterexample :
    ((0 : ℚ) ≤ 10 ∧ (0 : ℚ) < 1 ∧ (1 : ℚ) ≤ 1) ∧
    isOverlap [] [] (0, 10) 0 1 = ((false, none), [(0, 10)], [0]) ∧
    isOverlap [(0, 10)] [0] (0, 10) 0 1 =
      ((false, none), [(0, 10), (0, 10)], [0, 0]) := by
  refine ⟨⟨by norm_num, by norm_num, le_rfl⟩,
    by norm_num [isOverlap, bisectLeft], ?_⟩
  norm_num [isOverlap, bisectLeft, rLt, selfLeft, selfRight, nbrLeft, nbrRight,
    List.insertIdx_zero]

/-- C6 as amended: for a query of positive length and a ratio strictly
inside `(0, 1)`, if an insert returned admitted `False` (with result state
`r'`, `i'`), then immediately re-inserting the same query is rejected with
`(True, None)` and the state is unchanged. (At `ratio = 1`, or for a
zero-length query, the strict comparison lets the duplicate back in.) -/
theorem reinsertion_rejected (ranges : List Range) (indexes : List ℤ)
    (q : Range) (seg : ℤ) (ratio : ℚ) (r' : List Range) (i' : List ℤ)
    (hq : q.1 < q.2) (_hr0 : 0 < ratio) (hr1 : ratio < 1)
    (h : isOverlap ranges indexes q seg ratio = ((false, none), r', i')) :
    isOverlap r' i' q seg ratio = ((true, none), r', i') := by
  have hfalse : (isOverlap ranges indexes q seg ratio).1.1 = false := by rw [h]
  have hres := result_of_result_false hfalse
  rw [h] at hres
  have hr' : r' = List.insertIdx (bisectLeft ranges q) q ranges :=
    congrArg (fun p => p.2.1) hres
  have hi' : i' = List.insertIdx (bisectLeft ranges q) seg indexes :=
    congrArg (fun p => p.2.2) hres
  subst hr' hi'
  have hle : bisectLeft ranges q ≤ ranges.length := bisectLeft_le_length ranges q
  have hlen' : (List.insertIdx (bisectLeft ranges q) q ranges).length =
      ranges.length + 1 := List.length_insertIdx _ _ hle
  have hne' : List.insertIdx (bisectLeft ranges q) q ranges ≠ [] := by
    intro hc
    rw [hc] at hlen'
    simp at hlen'
  have hbis : bisectLeft (List.insertIdx (bisectLeft ranges q) q ranges) q =
      bisectLeft ranges q := bisectLeft_insertIdx_self ranges q
  by_cases hL2 : selfLeft (List.insertIdx (bisectLeft ranges q) q ranges)
      (bisectLeft (List.insertIdx (bisectLeft ranges q) q ranges) q) q ratio = true
  · exact isOverlap_selfLeft _ seg hne' hL2
  · have hR2 : selfRight (List.insertIdx (bisectLeft ranges q) q ranges)
        (bisectLeft (List.insertIdx (bisectLeft ranges q) q ranges) q) q ratio
          = true := by
      rw [hbis]
      simp only [selfRight, Bool.and_eq_true, decide_eq_true_eq]
      refine ⟨by rw [hlen']; omega, ?_⟩
      rw [getD_insertIdx_self _ _ _ _ hle]
      nlinarith [mul_pos (show (0 : ℚ) < q.2 - q.1 by linarith)
        (show (0 : ℚ) < 1 - ratio by linarith)]
    exact isOverlap_selfRight _ seg hne' (Bool.not_eq_true _ ▸ hL2) hR2

/-- Witness for amended C6: `(0,10)` admitted into the empty set, then
rejected on the second insertion at ratio `1/2`. -/
theorem reinsertion_rejected_witness :
    isOverlap [(0, 10)] [0] (0, 10) 0 (1/2) = ((true, none), [(0, 10)], [0]) :=
  reinsertion_rejected [] [] (0, 10) 0 (1/2) [(0, 10)] [0] (by norm_num)
    (by norm_num) (by norm_num) (by norm_num [isOverlap, bisectLeft])

/-- Counterexample for C3: with the fixed ratio `7/10 ∈ (0,1]`, starting
from the empty set, the three insertions `(10,11)`, `(11,11.5)`, `(9,12)`
end in a right-eviction that leaves the consecutive pair
`(9,12), (11,11.5)` overlapping by `1`, which exceeds `7/10` of the second
range's length `0.5`: the claimed pairwise invariant does not hold. -/
theorem overlap_invariant_counterexample :
    ((0 : ℚ) < 7/10 ∧ (7/10 : ℚ) ≤ 1) ∧
    insertAll [((10, 11), 0), ((11, 23/2), 1), ((9, 12), 2)] (7/10) ([], []) =
      ([(9, 12), (11, 23/2)], [2, 1]) ∧
    chainCompatible [(9, 12), (11, 23/2)] (7/10) = false := by
  refine ⟨⟨by norm_num, by norm_num⟩, ?_, ?_⟩
  · norm_num [insertAll, isOverlap, bisectLeft, rLt, selfLeft, selfRight,
      nbrLeft, nbrRight, List.insertIdx_zero, List.insertIdx_succ_cons,
      List.eraseIdx, List.isEmpty_cons]
    rw [if_neg (List.cons_ne_nil _ _)]
  · norm_num [chainCompatible, compatiblePair]

/-- C3 as amended: the ratio policy is enforced only locally, at the
insertion point: whenever a call is admitted without eviction (returns
`(False, None)`), the query is compatible — under both ratio bases — with
its immediate left and right neighbors at the insertion point. The global
pairwise invariant over the whole set is not maintained: an eviction can
place the query next to a previously non-adjacent range it overlaps beyond
the policy (see the counterexample). -/
theorem plain_insert_locally_compatible (ranges : List Range)
    (indexes : List ℤ) (q : Range) (seg : ℤ) (ratio : ℚ)
    (h : (isOverlap ranges indexes q seg ratio).1 = (false, none)) :
    (0 < bisectLeft ranges q →
      compatiblePair (ranges.getD (bisectLeft ranges q - 1) (0, 0)) q ratio
        = true) ∧
    (bisectLeft ranges q < ranges.length →
      compatiblePair q (ranges.getD (bisectLeft ranges q) (0, 0)) ratio
        = true) := by
  by_cases hne : ranges = []
  · subst hne
    constructor
    · intro hc
      simp [bisectLeft] at hc
    · intro hc
      simp [bisectLeft] at hc
  · have hfalse : (isOverlap ranges indexes q seg ratio).1.1 = false := by
      rw [h]
    obtain ⟨hL, hR, hoL, hoR⟩ := checks_false_of_result_false hne hfalse
    constructor
    · intro hpos
      have hL' : ¬((ranges.getD (bisectLeft ranges q - 1) (0, 0)).2 - q.1 >
          (q.2 - q.1) * ratio) := by
        intro hc
        have ht : selfLeft ranges (bisectLeft ranges q) q ratio = true := by
          simp only [selfLeft, Bool.and_eq_true, decide_eq_true_eq]
          exact ⟨hpos, hc⟩
        rw [hL] at ht
        exact Bool.false_ne_true ht
      have hoL' : ¬((ranges.getD (bisectLeft ranges q - 1) (0, 0)).2 - q.1 >
          ((ranges.getD (bisectLeft ranges q - 1) (0, 0)).2 -
            (ranges.getD (bisectLeft ranges q - 1) (0, 0)).1) * ratio) := by
        intro hc
        have ht : nbrLeft ranges (bisectLeft ranges q) q ratio = true := by
          simp only [nbrLeft, Bool.and_eq_true, decide_eq_true_eq]
          exact ⟨hpos, hc⟩
        rw [hoL] at ht
        exact Bool.false_ne_true ht
      simp only [compatiblePair, Bool.and_eq_true, decide_eq_true_eq]
      exact ⟨not_lt.mp hoL', not_lt.mp hL'⟩
    · intro hidx
      have hR' : ¬(q.2 - (ranges.getD (bisectLeft ranges q) (0, 0)).1 >
          (q.2 - q.1) * ratio) := by
        intro hc
        have ht : selfRight ranges (bisectLeft ranges q) q ratio = true := by
          simp only [selfRight, Bool.and_eq_true, decide_eq_true_eq]
          exact ⟨hidx, hc⟩
        rw [hR] at ht
        exact Bool.false_ne_true ht
      have hoR' : ¬(q.2 - (ranges.getD (bisectLeft ranges q) (0, 0)).1 >
          ((ranges.getD (bisectLeft ranges q) (0, 0)).2 -
            (ranges.getD (bisectLeft ranges q) (0, 0)).1) * ratio) := by
        intro hc
        have ht : nbrRight ranges (bisectLeft ranges q) q ratio = true := by
          simp only [nbrRight, Bool.and_eq_true, decide_eq_true_eq]
          exact ⟨hidx, hc⟩
        rw [hoR] at ht
        exact Bool.false_ne_true ht
      simp only [compatiblePair, Bool.and_eq_true, decide_eq_true_eq]
      exact ⟨not_lt.mp hR', not_lt.mp hoR'⟩

/-- Witness for amended C3: `(10,15)` admitted next to `(0,5)` is
compatible with it under both ratio bases. -/
theorem plain_insert_locally_compatible_witness :
    compatiblePair (0, 5) (10, 15) (1/4) = true :=
  (plain_insert_locally_compatible [(0, 5)] [1] (10, 15) 2 (1/4)
    (by norm_num [isOverlap, bisectLeft, rLt, selfLeft, selfRight,
      nbrLeft, nbrRight])).1
    (by norm_num [bisectLeft, rLt])

/-- C4: sortedness by the lexicographic `(start, end)` order is preserved
by every call, in all branches, and therefore after each call of any
sequence of insertions starting from a sorted state. -/
theorem sortedness_invariant :
    (∀ (ranges : List Range) (indexes : List ℤ) (q : Range) (seg : ℤ)
      (ratio : ℚ), rangesSorted ranges →
      rangesSorted (isOverlap ranges indexes q seg ratio).2.1) ∧
    (∀ (calls : List (Range × ℤ)) (ratio : ℚ) (st : List Range × List ℤ),
      rangesSorted st.1 → rangesSorted (insertAll calls ratio st).1) := by
  have main : ∀ (ranges : List Range) (indexes : List ℤ) (q : Range)
      (seg : ℤ) (ratio : ℚ), rangesSorted ranges →
      rangesSorted (isOverlap ranges indexes q seg ratio).2.1 := by
    intro ranges indexes q seg ratio hsort
    by_cases hne : ranges = []
    · subst hne
      rw [isOverlap_empty]
      exact List.pairwise_singleton _ _
    · have hins : rangesSorted (List.insertIdx (bisectLeft ranges q) q ranges) :=
        rangesSorted_insertIdx_bisect ranges q hsort
      by_cases hL : selfLeft ranges (bisectLeft ranges q) q ratio = true
      · rw [isOverlap_selfLeft indexes seg hne hL]
        exact hsort
      rw [Bool.not_eq_true] at hL
      by_cases hR : selfRight ranges (bisectLeft ranges q) q ratio = true
      · rw [isOverlap_selfRight indexes seg hne hL hR]
        exact hsort
      rw [Bool.not_eq_true] at hR
      by_cases hoL : nbrLeft ranges (bisectLeft ranges q) q ratio = true <;>
        by_cases hoR : nbrRight ranges (bisectLeft ranges q) q ratio = true
      · rw [isOverlap_rejectBoth indexes seg hne hL hR hoL hoR]
        exact hsort
      · rw [Bool.not_eq_true] at hoR
        rw [isOverlap_evictLeft indexes seg hne hL hR hoL hoR]
        exact List.Pairwise.sublist (List.eraseIdx_sublist _ _) hins
      · rw [Bool.not_eq_true] at hoL
        rw [isOverlap_evictRight indexes seg hne hL hR hoL hoR]
        exact List.Pairwise.sublist (List.eraseIdx_sublist _ _) hins
      · rw [Bool.not_eq_true] at hoL hoR
        rw [isOverlap_plainInsert indexes seg hne hL hR hoL hoR]
        exact hins
  refine ⟨main, fun calls => ?_⟩
  induction calls with
  | nil =>
    intro ratio st h
    simpa [insertAll] using h
  | cons c cs ih =>
    intro ratio st h
    have hstep : insertAll (c :: cs) ratio st =
        insertAll cs ratio (isOverlap st.1 st.2 c.1 c.2 ratio).2 := by
      simp [insertAll]
    rw [hstep]
    exact ih ratio _ (main st.1 st.2 c.1 c.2 ratio h)

/-- Witness for C4: the result of inserting `(10,15)` after `(0,5)` is
sorted. -/
theorem sortedness_invariant_witness :
    rangesSorted (isOverlap [(0, 5)] [1] (10, 15) 2 (1/4)).2.1 :=
  sortedness_invariant.1 [(0, 5)] [1] (10, 15) 2 (1/4)
    (by simp [rangesSorted])

/-- C8: starting from index-aligned parallel sequences of equal length,
both sequences have equal length again after every call, and the
pointwise pairing is preserved: the zipped result is the zipped input
subjected to the very same splice (unchanged, one insertion, or an
insertion followed by removal of the evicted neighbor). -/
theorem length_coupling (ranges : List Range) (indexes : List ℤ) (q : Range)
    (seg : ℤ) (ratio : ℚ) (hlen : indexes.length = ranges.length) :
    (isOverlap ranges indexes q seg ratio).2.2.length =
      (isOverlap ranges indexes q seg ratio).2.1.length ∧
    ((isOverlap ranges indexes q seg ratio).2.1.zip
        (isOverlap ranges indexes q seg ratio).2.2 = ranges.zip indexes ∨
      (isOverlap ranges indexes q seg ratio).2.1.zip
        (isOverlap ranges indexes q seg ratio).2.2 =
          List.insertIdx (bisectLeft ranges q) (q, seg) (ranges.zip indexes) ∨
      (isOverlap ranges indexes q seg ratio).2.1.zip
        (isOverlap ranges indexes q seg ratio).2.2 =
          (List.insertIdx (bisectLeft ranges q) (q, seg)
            (ranges.zip indexes)).eraseIdx (bisectLeft ranges q - 1) ∨
      (isOverlap ranges indexes q seg ratio).2.1.zip
        (isOverlap ranges indexes q seg ratio).2.2 =
          (List.insertIdx (bisectLeft ranges q) (q, seg)
            (ranges.zip indexes)).eraseIdx (bisectLeft ranges q + 1)) := by
  have hble : bisectLeft ranges q ≤ ranges.length := bisectLeft_le_length ranges q
  have hble' : bisectLeft ranges q ≤ indexes.length := hlen ▸ hble
  by_cases hne : ranges = []
  · subst hne
    have hidx : indexes = [] := List.length_eq_zero.mp hlen
    subst hidx
    rw [isOverlap_empty]
    exact ⟨rfl, Or.inr (Or.inl (by simp [bisectLeft, List.insertIdx_zero]))⟩
  · by_cases hL : selfLeft ranges (bisectLeft ranges q) q ratio = true
    · rw [isOverlap_selfLeft indexes seg hne hL]
      exact ⟨hlen, Or.inl rfl⟩
    rw [Bool.not_eq_true] at hL
    by_cases hR : selfRight ranges (bisectLeft ranges q) q ratio = true
    · rw [isOverlap_selfRight indexes seg hne hL hR]
      exact ⟨hlen, Or.inl rfl⟩
    rw [Bool.not_eq_true] at hR
    by_cases hoL : nbrLeft ranges (bisectLeft ranges q) q ratio = true <;>
      by_cases hoR : nbrRight ranges (bisectLeft ranges q) q ratio = true
    · rw [isOverlap_rejectBoth indexes seg hne hL hR hoL hoR]
      exact ⟨hlen, Or.inl rfl⟩
    · rw [Bool.not_eq_true] at hoR
      rw [isOverlap_evictLeft indexes seg hne hL hR hoL hoR]
      refine ⟨?_, Or.inr (Or.inr (Or.inl ?_))⟩
      · have hpos : 0 < bisectLeft ranges q := by
          have h1 := hoL
          simp only [nbrLeft, Bool.and_eq_true, decide_eq_true_eq] at h1
          exact h1.1
        have e1 : (List.insertIdx (bisectLeft ranges q) seg indexes).length =
            indexes.length + 1 := List.length_insertIdx _ _ hble'
        have e2 : (List.insertIdx (bisectLeft ranges q) q ranges).length =
            ranges.length + 1 := List.length_insertIdx _ _ hble
        rw [List.length_eraseIdx_of_lt (by omega),
          List.length_eraseIdx_of_lt (by omega), e1, e2, hlen]
      · rw [zip_eraseIdx, zip_insertIdx]
    · rw [Bool.not_eq_true] at hoL
      rw [isOverlap_evictRight indexes seg hne hL hR hoL hoR]
      refine ⟨?_, Or.inr (Or.inr (Or.inr ?_))⟩
      · have hidx : bisectLeft ranges q < ranges.length := by
          have h1 := hoR
          simp only [nbrRight, Bool.and_eq_true, decide_eq_true_eq] at h1
          exact h1.1
        have e1 : (List.insertIdx (bisectLeft ranges q) seg indexes).length =
            indexes.length + 1 := List.length_insertIdx _ _ hble'
        have e2 : (List.insertIdx (bisectLeft ranges q) q ranges).length =
            ranges.length + 1 := List.length_insertIdx _ _ hble
        rw [List.length_eraseIdx_of_lt (by omega),
          List.length_eraseIdx_of_lt (by omega), e1, e2, hlen]
      · rw [zip_eraseIdx, zip_insertIdx]
    · rw [Bool.not_eq_true] at hoL hoR
      rw [isOverlap_plainInsert indexes seg hne hL hR hoL hoR]
      refine ⟨?_, Or.inr (Or.inl ?_)⟩
      · rw [List.length_insertIdx _ _ hble, List.length_insertIdx _ _ hble',
          hlen]
      · rw [zip_insertIdx]

/-- Witness for C8 at a concrete plain insertion. -/
theorem length_coupling_witness :
    (isOverlap [(0, 5)] [1] (10, 15) 2 (1/4)).2.2.length =
      (isOverlap [(0, 5)] [1] (10, 15) 2 (1/4)).2.1.length :=
  (length_coupling [(0, 5)] [1] (10, 15) 2 (1/4) rfl).1

/-! ### Frame lemmas: the decision depends only on the two neighbors -/

theorem optSelfCheckL_leftNbr (ranges : List Range) (index : Nat) (q : Range)
    (ratio : ℚ) :
    optSelfCheckL (leftNbr ranges index) q ratio =
      selfLeft ranges index q ratio := by
  by_cases h : 0 < index
  · simp [optSelfCheckL, leftNbr, selfLeft, h]
  · simp [optSelfCheckL, leftNbr, selfLeft, h]

theorem optSelfCheckR_rightNbr (ranges : List Range) (index : Nat) (q : Range)
    (ratio : ℚ) :
    optSelfCheckR (rightNbr ranges index) q ratio =
      selfRight ranges index q ratio := by
  by_cases h : index < ranges.length
  · simp [optSelfCheckR, rightNbr, selfRight, h]
  · simp [optSelfCheckR, rightNbr, selfRight, h]

theorem optNbrCheckL_leftNbr (ranges : List Range) (index : Nat) (q : Range)
    (ratio : ℚ) :
    optNbrCheckL (leftNbr ranges index) q ratio =
      nbrLeft ranges index q ratio := by
  by_cases h : 0 < index
  · simp [optNbrCheckL, leftNbr, nbrLeft, h]
  · simp [optNbrCheckL, leftNbr, nbrLeft, h]

theorem optNbrCheckR_rightNbr (ranges : List Range) (index : Nat) (q : Range)
    (ratio : ℚ) :
    optNbrCheckR (rightNbr ranges index) q ratio =
      nbrRight ranges index q ratio := by
  by_cases h : index < ranges.length
  · simp [optNbrCheckR, rightNbr, nbrRight, h]
  · simp [optNbrCheckR, rightNbr, nbrRight, h]

/-- C10: the outcome of a call is a function of the query, the ratio and
the (at most two) ranges adjacent to the bisection insertion point alone —
no other element is consulted — and every call keeps all existing elements
except at most one, in order (the result contains `ranges` minus at most
one position as a sublist, and grows by at most one element). -/
theorem insert_frame_local (ranges : List Range) (indexes : List ℤ)
    (q : Range) (seg : ℤ) (ratio : ℚ)
    (_hlen : indexes.length = ranges.length) :
    (match localOutcome (leftNbr ranges (bisectLeft ranges q))
        (rightNbr ranges (bisectLeft ranges q)) q ratio with
      | Outcome.inserted =>
          isOverlap ranges indexes q seg ratio =
            ((false, none), List.insertIdx (bisectLeft ranges q) q ranges,
              List.insertIdx (bisectLeft ranges q) seg indexes)
      | Outcome.rejectedQuery =>
          isOverlap ranges indexes q seg ratio = ((true, none), ranges, indexes)
      | Outcome.rejectedBoth =>
          isOverlap ranges indexes q seg ratio = ((true, none), ranges, indexes)
      | Outcome.evictedLeft =>
          isOverlap ranges indexes q seg ratio =
            ((true, some ((List.insertIdx (bisectLeft ranges q) seg
                indexes).getD (bisectLeft ranges q - 1) 0)),
              (List.insertIdx (bisectLeft ranges q) q ranges).eraseIdx
                (bisectLeft ranges q - 1),
              (List.insertIdx (bisectLeft ranges q) seg indexes).eraseIdx
                (bisectLeft ranges q - 1))
      | Outcome.evictedRight =>
          isOverlap ranges indexes q seg ratio =
            ((true, some ((List.insertIdx (bisectLeft ranges q) seg
                indexes).getD (bisectLeft ranges q + 1) 0)),
              (List.insertIdx (bisectLeft ranges q) q ranges).eraseIdx
                (bisectLeft ranges q + 1),
              (List.insertIdx (bisectLeft ranges q) seg indexes).eraseIdx
                (bisectLeft ranges q + 1))) ∧
    (∃ j, (ranges.eraseIdx j).Sublist (isOverlap ranges indexes q seg ratio).2.1) ∧
    (isOverlap ranges indexes q seg ratio).2.1.length ≤ ranges.length + 1 := by
  have hble : bisectLeft ranges q ≤ ranges.length := bisectLeft_le_length ranges q
  have hout : localOutcome (leftNbr ranges (bisectLeft ranges q))
      (rightNbr ranges (bisectLeft ranges q)) q ratio =
      (if selfLeft ranges (bisectLeft ranges q) q ratio then
        Outcome.rejectedQuery
      else if selfRight ranges (bisectLeft ranges q) q ratio then
        Outcome.rejectedQuery
      else if nbrLeft ranges (bisectLeft ranges q) q ratio &&
          !(nbrRight ranges (bisectLeft ranges q) q ratio) then
        Outcome.evictedLeft
      else if nbrRight ranges (bisectLeft ranges q) q ratio &&
          !(nbrLeft ranges (bisectLeft ranges q) q ratio) then
        Outcome.evictedRight
      else if nbrLeft ranges (bisectLeft ranges q) q ratio ||
          nbrRight ranges (bisectLeft ranges q) q ratio then
        Outcome.rejectedBoth
      else Outcome.inserted) := by
    simp only [localOutcome, optSelfCheckL_leftNbr, optSelfCheckR_rightNbr,
      optNbrCheckL_leftNbr, optNbrCheckR_rightNbr]
  by_cases hne : ranges = []
  · subst hne
    have hz : bisectLeft ([] : List Range) q = 0 := rfl
    rw [hz] at hout
    have hL : selfLeft [] 0 q ratio = false := by simp [selfLeft]
    have hR : selfRight [] 0 q ratio = false := by simp [selfRight]
    have hoL : nbrLeft [] 0 q ratio = false := by simp [nbrLeft]
    have hoR : nbrRight [] 0 q ratio = false := by simp [nbrRight]
    rw [hL, hR, hoL, hoR] at hout
    simp only [Bool.false_and, Bool.or_self, if_false] at hout
    rw [hz, hout]
    refine ⟨?_, ⟨0, ?_⟩, ?_⟩
    · rw [isOverlap_empty]
      simp [List.insertIdx_zero]
    · rw [isOverlap_empty]
      simp
    · rw [isOverlap_empty]
      simp
  · by_cases hL : selfLeft ranges (bisectLeft ranges q) q ratio = true
    · rw [hL] at hout
      simp only [if_true] at hout
      rw [hout, isOverlap_selfLeft indexes seg hne hL]
      exact ⟨rfl, ⟨ranges.length, by
        rw [List.eraseIdx_of_length_le le_rfl]⟩, by simp⟩
    rw [Bool.not_eq_true] at hL
    by_cases hR : selfRight ranges (bisectLeft ranges q) q ratio = true
    · rw [hL, hR] at hout
      simp only [if_true, if_false, Bool.false_eq_true] at hout
      rw [hout, isOverlap_selfRight indexes seg hne hL hR]
      exact ⟨rfl, ⟨ranges.length, by
        rw [List.eraseIdx_of_length_le le_rfl]⟩, by simp⟩
    rw [Bool.not_eq_true] at hR
    by_cases hoL : nbrLeft ranges (bisectLeft ranges q) q ratio = true <;>
      by_cases hoR : nbrRight ranges (bisectLeft ranges q) q ratio = true
    · -- both: rejectedBoth
      rw [hL, hR, hoL, hoR] at hout
      simp only [Bool.not_true, Bool.and_false, Bool.true_and, Bool.true_or,
        Bool.false_eq_true, if_false, if_true] at hout
      rw [hout, isOverlap_rejectBoth indexes seg hne hL hR hoL hoR]
      exact ⟨rfl, ⟨ranges.length, by
        rw [List.eraseIdx_of_length_le le_rfl]⟩, by simp⟩
    · -- left eviction
      rw [Bool.not_eq_true] at hoR
      rw [hL, hR, hoL, hoR] at hout
      simp only [Bool.not_false, Bool.and_true, Bool.true_and,
        Bool.false_eq_true, if_false, if_true] at hout
      rw [hout, isOverlap_evictLeft indexes seg hne hL hR hoL hoR]
      have hpos : 0 < bisectLeft ranges q := by
        have h1 := hoL
        simp only [nbrLeft, Bool.and_eq_true, decide_eq_true_eq] at h1
        exact h1.1
      have hsucc : bisectLeft ranges q - 1 + 1 = bisectLeft ranges q := by omega
      have e1 := List.insertIdx_eraseIdx_of_ge (a := q)
        (bisectLeft ranges q - 1) (bisectLeft ranges q - 1) ranges
        (by omega) le_rfl
      rw [hsucc] at e1
      refine ⟨rfl, ⟨bisectLeft ranges q - 1, ?_⟩, ?_⟩
      · rw [← e1]
        exact sublist_insertIdx _ _ _
      · rw [List.length_eraseIdx_of_lt
          (by rw [List.length_insertIdx _ _ hble]; omega),
          List.length_insertIdx _ _ hble]
        omega
    · -- right eviction
      rw [Bool.not_eq_true] at hoL
      rw [hL, hR, hoL, hoR] at hout
      simp only [Bool.not_false, Bool.and_true, Bool.false_and,
        Bool.false_eq_true, if_false, if_true] at hout
      rw [hout, isOverlap_evictRight indexes seg hne hL hR hoL hoR]
      have hidx : bisectLeft ranges q < ranges.length := by
        have h1 := hoR
        simp only [nbrRight, Bool.and_eq_true, decide_eq_true_eq] at h1
        exact h1.1
      have e1 := List.insertIdx_eraseIdx_of_le (a := q)
        (bisectLeft ranges q) (bisectLeft ranges q) ranges hidx le_rfl
      refine ⟨rfl, ⟨bisectLeft ranges q, ?_⟩, ?_⟩
      · rw [← e1]
        exact sublist_insertIdx _ _ _
      · rw [List.length_eraseIdx_of_lt
          (by rw [List.length_insertIdx _ _ hble]; omega),
          List.length_insertIdx _ _ hble]
        omega
    · -- plain insertion
      rw [Bool.not_eq_true] at hoL hoR
      rw [hL, hR, hoL, hoR] at hout
      simp only [Bool.false_and, Bool.or_self, Bool.false_eq_true, if_false]
        at hout
      rw [hout, isOverlap_plainInsert indexes seg hne hL hR hoL hoR]
      refine ⟨rfl, ⟨ranges.length, ?_⟩, ?_⟩
      · rw [List.eraseIdx_of_length_le le_rfl]
        exact sublist_insertIdx _ _ _
      · rw [List.length_insertIdx _ _ hble]

/-- Witness for C10: a plain insertion next to one existing range. -/
theorem insert_frame_local_witness :
    isOverlap [(0, 5)] [3] (10, 12) 4 (1/4) =
      ((false, none), [(0, 5), (10, 12)], [3, 4]) := by
  have h := (insert_frame_local [(0, 5)] [3] (10, 12) 4 (1/4) rfl).1
  have hout : localOutcome (leftNbr [(0, 5)] (bisectLeft [(0, 5)] (10, 12)))
      (rightNbr [(0, 5)] (bisectLeft [(0, 5)] (10, 12))) (10, 12) (1/4) =
      Outcome.inserted := by
    norm_num [localOutcome, leftNbr, rightNbr, bisectLeft, rLt,
      optSelfCheckL, optSelfCheckR, optNbrCheckL, optNbrCheckR]
  rw [hout] at h
  rw [h]
  norm_num [bisectLeft, rLt, List.insertIdx_succ_cons, List.insertIdx_zero]

end TextSearch
